import Mathlib

/-
Verification development for the scooper-v2 indexer / AMM scoop simulator.

Shallow embedding of the Rust sources:
  - src/cardano_types.rs      : AssetClass, Value (BTreeMap of BTreeMaps)
  - src/sundaev3/types.rs     : SingletonValue, Order, OrderDatum, PoolDatum,
                                SettingsDatum and the record wrappers
  - src/sundaev3/builder.rs   : ScoopBuilder (apply_order, validate, simple_fee,
                                pool_values, is_efficient)
  - src/sundaev3/validation.rs: validate_order_value, validate_order_for_pool,
                                validate_order
  - src/historical_state.rs   : HistoricalState::update_slot
  - src/sundaev3/indexer.rs   : the scoop-selection step of
                                handle_onchain_tx_bytes

Conventions.  Rust `BigInt` (num-bigint) is embedded as `Int`; num-bigint
division truncates toward zero, so every `/` on BigInt is `Int.tdiv`.
`Vec<u8>` keys are embedded as `List Nat` with the lexicographic order of
Rust's `Ord for Vec<u8>`.  `BTreeMap` is embedded as an association list in
ascending key order; the BTreeMap guarantees (keys strictly sorted, hence
distinct) appear as explicit well-formedness hypotheses where a theorem
needs them.  Stateful methods taking `&mut self` are embedded by explicit
state passing: they return the new state, paired with an `Except` result
when the Rust method returns `Result`.  Mutations performed before an early
`return Err(..)` (notably `actual_size += 1` at the top of
`ScoopBuilder::apply_order`) are therefore visible in the returned state.
-/

/-! ## Bytes and byte-keyed association maps -/

/-- `Vec<u8>`: a byte string, compared lexicographically. -/
abbrev Bytes := List Nat

/-- Lexicographic order of Rust's `Ord for Vec<u8>`: compare element-wise,
a strict prefix is smaller. -/
def bytesLt : Bytes → Bytes → Bool
  | [], [] => false
  | [], _ :: _ => true
  | _ :: _, [] => false
  | a :: as, b :: bs => if a < b then true else if b < a then false else bytesLt as bs

/-- `BTreeMap::get`: the entry for a key (first match in the list model). -/
def mapGet {V : Type} : List (Bytes × V) → Bytes → Option V
  | [], _ => none
  | (k, v) :: rest, key => if k = key then some v else mapGet rest key

/-- `BTreeMap::insert`: insert in ascending key position, replacing an equal
key in place. -/
def mapInsert {V : Type} : List (Bytes × V) → Bytes → V → List (Bytes × V)
  | [], key, val => [(key, val)]
  | (k, v) :: rest, key, val =>
    if bytesLt key k then (key, val) :: (k, v) :: rest
    else if key = k then (key, val) :: rest
    else (k, v) :: mapInsert rest key val

/-- In-place overwrite of the entry obtained by `BTreeMap::get_mut`: replace
the value at the (first) matching key, keeping its position. -/
def mapReplace {V : Type} : List (Bytes × V) → Bytes → V → List (Bytes × V)
  | [], _, _ => []
  | (k, v) :: rest, key, val =>
    if k = key then (key, val) :: rest else (k, v) :: mapReplace rest key val

/-- `BTreeMap::remove`: drop the (first) entry with the given key. -/
def mapRemove {V : Type} : List (Bytes × V) → Bytes → List (Bytes × V)
  | [], _ => []
  | (k, v) :: rest, key => if k = key then rest else (k, v) :: mapRemove rest key

/-! ## cardano_types.rs : AssetClass and Value -/

/-- `AssetClass { policy, token }`. -/
structure AssetClass where
  policy : Bytes
  token : Bytes
deriving DecidableEq

/-- `ADA_ASSET_CLASS`: the distinguished `(∅, ∅)` asset class. -/
def ADA_ASSET_CLASS : AssetClass := ⟨[], []⟩

/-- `Value(BTreeMap<Bytes, BTreeMap<Bytes, BigInt>>)`. -/
structure Value where
  assets : List (Bytes × List (Bytes × Int))
deriving DecidableEq

/-- `Value::new`. -/
def Value.new : Value := ⟨[]⟩

/-- `Value::get`: quantity of an asset class, 0 when absent. -/
def Value.get (v : Value) (asset_class : AssetClass) : Int :=
  match mapGet v.assets asset_class.policy with
  | some assets =>
    match mapGet assets asset_class.token with
    | some quantity => quantity
    | none => 0
  | none => 0

/-- `Value::delete`: remove the token from its policy map; drop the policy
map when it becomes empty. -/
def Value.delete (v : Value) (asset_class : AssetClass) : Value :=
  match mapGet v.assets asset_class.policy with
  | none => v
  | some tokens =>
    let tokens := mapRemove tokens asset_class.token
    if tokens.isEmpty then ⟨mapRemove v.assets asset_class.policy⟩
    else ⟨mapReplace v.assets asset_class.policy tokens⟩

/-- `Value::insert`: a zero quantity deletes; otherwise insert into the
(existing or fresh) inner map. -/
def Value.insert (v : Value) (asset_class : AssetClass) (quantity : Int) : Value :=
  if quantity = 0 then v.delete asset_class
  else
    match mapGet v.assets asset_class.policy with
    | some tokens =>
        ⟨mapReplace v.assets asset_class.policy (mapInsert tokens asset_class.token quantity)⟩
    | none => ⟨mapInsert v.assets asset_class.policy [(asset_class.token, quantity)]⟩

/-- `Value::add`. -/
def Value.add (v : Value) (asset_class : AssetClass) (quantity : Int) : Value :=
  v.insert asset_class (v.get asset_class + quantity)

/-- `Value::subtract`. -/
def Value.subtract (v : Value) (asset_class : AssetClass) (quantity : Int) : Value :=
  v.insert asset_class (v.get asset_class - quantity)

/-- Modelled from the spec: `Value::get_asset_class`, called throughout
src/sundaev3/validation.rs, is not defined under src/ (only `Value::get`
is).  Per spec §4.A, `get(Value, AssetClass) → BigInt (missing = 0)` is the
lookup these call sites use, so the method is modelled as `Value.get`. -/
def Value.get_asset_class (v : Value) (asset_class : AssetClass) : Int :=
  v.get asset_class

/-! ## sundaev3/types.rs : datum types

Fields never read by the embedded operations are omitted:
`OrderDatum.owner/destination/extra`, `PoolDatum.fee_manager`, the
`input`/`slot` fields of the record wrappers, and every `SettingsDatum`
field other than `base_fee` and `simple_fee`. -/

/-- `SingletonValue { policy, token, amount }`. -/
structure SingletonValue where
  policy : Bytes
  token : Bytes
  amount : Int
deriving DecidableEq

/-- `SingletonValue::asset_class`. -/
def SingletonValue.asset_class (s : SingletonValue) : AssetClass :=
  ⟨s.policy, s.token⟩

/-- `StrategyAuthorization`. -/
inductive StrategyAuthorization where
  | Signature (bytes : Bytes)
  | Script (bytes : Bytes)
deriving DecidableEq

/-- `Order` (the order action). -/
inductive Order where
  | Strategy (auth : StrategyAuthorization)
  | Swap (given taken : SingletonValue)
  | Deposit (a b : SingletonValue)
  | Withdrawal (lp : SingletonValue)
  | Donation (a b : SingletonValue)
  | Record (asset : AssetClass)
deriving DecidableEq

/-- `OrderDatum` (fields read by validation and the builder). -/
structure OrderDatum where
  ident : Option Bytes
  scoop_fee : Int
  action : Order
deriving DecidableEq

/-- `PoolDatum`. -/
structure PoolDatum where
  ident : Bytes
  assets : AssetClass × AssetClass
  circulating_lp : Int
  bid_fees_per_10_thousand : Int
  ask_fees_per_10_thousand : Int
  market_open : Int
  protocol_fees : Int
deriving DecidableEq

/-- `SettingsDatum` (fields read by the builder). -/
structure SettingsDatum where
  base_fee : Int
  simple_fee : Int
deriving DecidableEq

/-- `SundaeV3Pool` (datum and value; `input`/`slot` unused here). -/
structure SundaeV3Pool where
  value : Value
  pool_datum : PoolDatum
deriving DecidableEq

/-- `SundaeV3Order` (datum and value; `input`/`slot` unused here). -/
structure SundaeV3Order where
  value : Value
  datum : OrderDatum
deriving DecidableEq

/-! ## sundaev3/builder.rs : the scoop builder -/

/-- `ApplyOrderError`. -/
inductive ApplyOrderError where
  | NoEfficientOrderGive
  | CoinPairMismatch
  | NegativeDeposit (n : Int)
  | NoLiquidity
deriving DecidableEq

/-- `ScoopError`. -/
inductive ScoopError where
  | WrongOrderCount (expected actual : Nat)
deriving DecidableEq

/-- `ScoopBuilder` state. -/
structure ScoopBuilder where
  pool : PoolDatum
  value : Value
  expected_size : Nat
  actual_size : Nat
  settings : SettingsDatum
deriving DecidableEq

/-- `ScoopBuilder::new`. -/
def ScoopBuilder.new (pool : SundaeV3Pool) (settings : SettingsDatum) (size : Nat) :
    ScoopBuilder :=
  { pool := pool.pool_datum
    value := pool.value
    expected_size := size
    actual_size := 0
    settings := settings }

/-- The `asset_value` closure of `ScoopBuilder::pool_values`: the pool's
quantity of an asset, with `protocol_fees` deducted on the ada side. -/
def ScoopBuilder.asset_value (b : ScoopBuilder) (asset : AssetClass) : Int :=
  let amount := b.value.get asset
  if asset = ADA_ASSET_CLASS then amount - b.pool.protocol_fees else amount

/-- `ScoopBuilder::pool_values`. -/
def ScoopBuilder.pool_values (b : ScoopBuilder) : Int × Int :=
  (b.asset_value b.pool.assets.1, b.asset_value b.pool.assets.2)

/-- `ScoopBuilder::simple_fee`: the base fee amortized over the expected
batch size, plus the per-order simple fee. -/
def ScoopBuilder.simple_fee (b : ScoopBuilder) : Int :=
  let size : Int := Int.ofNat b.expected_size
  let amortized_base_fee := Int.tdiv (b.settings.base_fee + size - 1) size
  amortized_base_fee + b.settings.simple_fee

/-- `is_efficient` (builder.rs, free function): whether giving one unit
less would already yield strictly fewer takes. -/
def is_efficient (pool_takes pool_gives order_give diff : Int) : Bool :=
  let takes_less_num := pool_takes * diff * order_give - pool_takes * diff
  let takes_less_den := pool_gives * 10000 + order_give * diff - diff
  let takes_less := Int.tdiv takes_less_num takes_less_den
  let takes_num := pool_takes * diff * order_give
  let takes_den := pool_gives * 10000 + order_give * diff
  let takes := Int.tdiv takes_num takes_den
  takes_less < takes

/-- The takes computation of the `Order::Swap` branch of
`ScoopBuilder::apply_order` (builder.rs lines 49-52). -/
def swap_takes (pool_takes pool_gives amount diff : Int) : Int :=
  let takes_num := pool_takes * amount * diff
  let takes_den := pool_gives * 10000 + amount * diff
  Int.tdiv takes_num takes_den

/-- The recomputed minimum order give of the `Order::Swap` branch
(builder.rs lines 55-58). -/
def order_give_base (pool_takes pool_gives diff takes : Int) : Int :=
  let order_give_num := takes * pool_gives * 10000
  let order_give_den := (pool_takes - takes) * diff
  Int.tdiv order_give_num order_give_den

/-- The candidate selection of the `Order::Swap` branch (builder.rs lines
60-76): try `g0+1` (gated on `≤ amount`), then `g0`, then `g0-1`. -/
def choose_order_give (pool_takes pool_gives amount diff : Int) : Option Int :=
  let takes := swap_takes pool_takes pool_gives amount diff
  let order_give_num := order_give_base pool_takes pool_gives diff takes
  let order_give_plus_1 := order_give_num + 1
  let order_give_0 := order_give_num
  let order_give_minus_1 := order_give_num - 1
  if is_efficient pool_takes pool_gives order_give_plus_1 diff ∧ order_give_plus_1 ≤ amount then
    some order_give_plus_1
  else if is_efficient pool_takes pool_gives order_give_0 diff then
    some order_give_0
  else if is_efficient pool_takes pool_gives order_give_minus_1 diff then
    some order_give_minus_1
  else
    none

/-- The tail of the `Order::Swap` branch: once the direction is fixed,
compute takes, choose the give, and on success mutate value, protocol fees
and the fee share (builder.rs lines 49-84). -/
def ScoopBuilder.swap_core (b : ScoopBuilder) (given taken : SingletonValue)
    (pool_gives pool_takes charge_per_10k : Int) :
    ScoopBuilder × Except ApplyOrderError Unit :=
  let diff := 10000 - charge_per_10k
  let takes := swap_takes pool_takes pool_gives given.amount diff
  match choose_order_give pool_takes pool_gives given.amount diff with
  | none => (b, .error .NoEfficientOrderGive)
  | some order_give =>
    let value := (b.value.add given.asset_class order_give).subtract taken.asset_class takes
    let b := { b with value := value }
    let fee := b.simple_fee
    ({ b with
        pool := { b.pool with protocol_fees := b.pool.protocol_fees + fee }
        value := b.value.add ADA_ASSET_CLASS fee }, .ok ())

/-- `ScoopBuilder::apply_order`.  Taking `&mut self` and returning
`Result<(), ApplyOrderError>` in Rust, it is embedded as
state × result; `actual_size += 1` happens before the match and is
retained on the error paths, exactly as in the source. -/
def ScoopBuilder.apply_order (b0 : ScoopBuilder) (order : SundaeV3Order) :
    ScoopBuilder × Except ApplyOrderError Unit :=
  let b := { b0 with actual_size := b0.actual_size + 1 }
  match order.datum.action with
  | .Strategy _ => (b, .ok ())
  | .Swap given taken =>
    if given.asset_class = b.pool.assets.1 then
      let pool_gives := (b.pool_values).1
      let pool_takes := (b.pool_values).2
      b.swap_core given taken pool_gives pool_takes b.pool.bid_fees_per_10_thousand
    else if given.asset_class = b.pool.assets.2 then
      let pool_takes := (b.pool_values).1
      let pool_gives := (b.pool_values).2
      b.swap_core given taken pool_gives pool_takes b.pool.ask_fees_per_10_thousand
    else (b, .error .CoinPairMismatch)
  | .Deposit a c =>
    let fee := b.simple_fee
    let quantity_a := a.amount
    let quantity_b := c.amount
    let token_a := (b.pool_values).1
    let token_b := (b.pool_values).2
    let actual_a0 := order.value.get a.asset_class
    let actual_a :=
      if a.asset_class = ADA_ASSET_CLASS then actual_a0 - (2000000 + fee) else actual_a0
    let actual_b := order.value.get c.asset_class
    let user_gives_a := min quantity_a actual_a
    if ¬ 0 < user_gives_a then (b, .error (.NegativeDeposit user_gives_a))
    else
      let user_gives_b := min quantity_b actual_b
      let b_in_units_of_a := Int.tdiv (user_gives_b * token_a) token_b
      let changes :=
        if user_gives_a < b_in_units_of_a then
          let b_gives_minus_change := token_b * user_gives_a
          let b_gives_minus_change := b_gives_minus_change - 1
          let b_gives_minus_change := Int.tdiv b_gives_minus_change token_a
          let b_gives_minus_change := b_gives_minus_change + 1
          ((0 : Int), user_gives_b - b_gives_minus_change)
        else (user_gives_a - b_in_units_of_a, (0 : Int))
      let actual_dep_a := user_gives_a - changes.1
      let actual_dep_b := user_gives_b - changes.2
      let new_liquidity :=
        if 0 < quantity_a then Int.tdiv (actual_dep_a * b.pool.circulating_lp) token_a
        else 0
      if ¬ 0 < new_liquidity then (b, .error .NoLiquidity)
      else
        let pool := { b.pool with circulating_lp := b.pool.circulating_lp + new_liquidity }
        let value := (b.value.add a.asset_class actual_dep_a).add c.asset_class actual_dep_b
        let b := { b with pool := pool, value := value }
        ({ b with
            pool := { b.pool with protocol_fees := b.pool.protocol_fees + fee }
            value := b.value.add ADA_ASSET_CLASS fee }, .ok ())
  | .Withdrawal lp =>
    let old_a := (b.pool_values).1
    let old_b := (b.pool_values).2
    let withdrawn_a := Int.tdiv (old_a * lp.amount) b.pool.circulating_lp
    let withdrawn_b := Int.tdiv (old_b * lp.amount) b.pool.circulating_lp
    let value :=
      (b.value.subtract b.pool.assets.1 withdrawn_a).subtract b.pool.assets.2 withdrawn_b
    let pool := { b.pool with circulating_lp := b.pool.circulating_lp - lp.amount }
    let b := { b with value := value, pool := pool }
    let fee := b.simple_fee
    ({ b with
        pool := { b.pool with protocol_fees := b.pool.protocol_fees + fee }
        value := b.value.add ADA_ASSET_CLASS fee }, .ok ())
  | .Donation a c =>
    let value := (b.value.add a.asset_class a.amount).add c.asset_class c.amount
    let b := { b with value := value }
    let fee := b.simple_fee
    ({ b with
        pool := { b.pool with protocol_fees := b.pool.protocol_fees + fee }
        value := b.value.add ADA_ASSET_CLASS fee }, .ok ())
  | .Record _ =>
    let fee := b.simple_fee
    ({ b with
        pool := { b.pool with protocol_fees := b.pool.protocol_fees + fee }
        value := b.value.add ADA_ASSET_CLASS fee }, .ok ())

/-- `ScoopBuilder::validate`. -/
def ScoopBuilder.validate (b : ScoopBuilder) : Except ScoopError Unit :=
  if b.expected_size ≠ b.actual_size then
    .error (.WrongOrderCount b.expected_size b.actual_size)
  else .ok ()

/-! ## sundaev3/validation.rs -/

/-- `ADA_RIDER`. -/
def ADA_RIDER : Int := 2000000

/-- `ValueError`. -/
inductive ValueError where
  | GivesZeroTokens
  | HasInsufficientTokens (asset : AssetClass) (expected actual : Int)
deriving DecidableEq

/-- `PoolError`.  `OutOfRange` carries two `f64` prices in the source,
which have no shallow embedding; the payload is omitted. -/
inductive PoolError where
  | IdentMismatch
  | CoinPairMismatch
  | Empty
  | OutOfRange
deriving DecidableEq

/-- `ValidationError`. -/
inductive ValidationError where
  | ValueError (e : ValueError)
  | PoolError (e : PoolError)
deriving DecidableEq

/-- `validate_order_value`: self-consistency of the order UTxO value given
its stated action. -/
def validate_order_value (datum : OrderDatum) (value : Value) : Except ValueError Unit :=
  let scoop_fee := datum.scoop_fee
  match datum.action with
  | .Strategy _ => .ok ()
  | .Swap gives _takes =>
    let minimum_ada := ADA_RIDER + scoop_fee
    let gives_asset := gives.asset_class
    let gives_ada := if gives_asset = ADA_ASSET_CLASS then gives.amount else 0
    if ¬ 0 < gives.amount then .error .GivesZeroTokens
    else
      let actual_ada := value.get_asset_class ADA_ASSET_CLASS
      let expected_ada := gives_ada + minimum_ada
      if actual_ada < expected_ada then
        .error (.HasInsufficientTokens ADA_ASSET_CLASS expected_ada actual_ada)
      else
        let actual_amount_of_give_token :=
          value.get_asset_class gives_asset -
            (if gives_asset = ADA_ASSET_CLASS then minimum_ada else 0)
        if actual_amount_of_give_token < 0 then .error .GivesZeroTokens
        else if actual_amount_of_give_token < gives.amount then
          .error (.HasInsufficientTokens gives_asset gives.amount actual_amount_of_give_token)
        else .ok ()
  | .Deposit a c =>
    let asset_a := a.asset_class
    let asset_b := c.asset_class
    let actual_a0 := value.get_asset_class asset_a
    let minimum := ADA_RIDER + scoop_fee
    if asset_a = ADA_ASSET_CLASS ∧ actual_a0 < minimum then
      .error (.HasInsufficientTokens ADA_ASSET_CLASS minimum actual_a0)
    else
      let actual_a := if asset_a = ADA_ASSET_CLASS then actual_a0 - minimum else actual_a0
      let actual_b := value.get_asset_class asset_b
      if ¬ 0 < actual_a ∨ ¬ 0 < actual_b then .error .GivesZeroTokens
      else if actual_a < a.amount then
        .error (.HasInsufficientTokens asset_a a.amount actual_a)
      else if actual_b < c.amount then
        .error (.HasInsufficientTokens asset_b c.amount actual_b)
      else .ok ()
  | .Withdrawal singleton =>
    if ¬ 0 < singleton.amount then .error .GivesZeroTokens
    else
      let actual := value.get_asset_class singleton.asset_class
      if actual < singleton.amount then
        .error (.HasInsufficientTokens singleton.asset_class singleton.amount actual)
      else
        let expected := ADA_RIDER + scoop_fee
        let actual_ada := value.get_asset_class ADA_ASSET_CLASS
        if actual_ada < expected then
          .error (.HasInsufficientTokens ADA_ASSET_CLASS expected actual_ada)
        else .ok ()
  | _ => .ok ()

/-- `validate_order_for_pool`: the order's ident and asset pair against the
pool's. -/
def validate_order_for_pool (order : OrderDatum) (pool : PoolDatum) : Except PoolError Unit :=
  if (match order.ident with | some i => decide (i ≠ pool.ident) | none => false) then
    .error .IdentMismatch
  else
    match order.action with
    | .Swap gives takes =>
      let give_coin := gives.asset_class
      let take_coin := takes.asset_class
      let matches_a_to_b := pool.assets.1 = give_coin ∧ pool.assets.2 = take_coin
      let matches_b_to_a := pool.assets.1 = take_coin ∧ pool.assets.2 = give_coin
      if ¬ (matches_a_to_b ∨ matches_b_to_a) then .error .CoinPairMismatch
      else .ok ()
    | .Deposit a c =>
      let a_coin := a.asset_class
      let b_coin := c.asset_class
      let matches_a_to_b := pool.assets.1 = a_coin ∧ pool.assets.2 = b_coin
      let matches_b_to_a := pool.assets.1 = b_coin ∧ pool.assets.2 = a_coin
      if ¬ (matches_a_to_b ∨ matches_b_to_a) then .error .CoinPairMismatch
      else .ok ()
    | _ => .ok ()

/-- `validate_order`: value check, then pool check, then the price-range
estimate.  `estimate_whether_in_range` computes on `f64` prices, which have
no shallow embedding; it is abstracted as the function argument
`estimate`, so the theorems below hold for every estimate. -/
def validate_order (estimate : OrderDatum → PoolDatum → Value → Except PoolError Unit)
    (order : OrderDatum) (value : Value) (pool : PoolDatum) (pool_value : Value) :
    Except ValidationError Unit :=
  match validate_order_value order value with
  | .error e => .error (.ValueError e)
  | .ok _ =>
    match validate_order_for_pool order pool with
    | .error e => .error (.PoolError e)
    | .ok _ =>
      match estimate order pool pool_value with
      | .error e => .error (.PoolError e)
      | .ok _ => .ok ()

/-- Modelled from the spec: the two-argument
`get_pool_price(pool_datum, pool_value)` imported by
src/sundaev3/validation.rs from the `sundaev3` module root is not present
under src/ (the module root file is missing; src/sundaev3/utils.rs holds a
different, three-argument function).  Per spec §4.D: with
`(a, b) = pool.assets`,
`qa = pool_value.get(a) - (pool.protocol_fees if a is ada else 0)` and
`qb = pool_value.get(b)`, it returns `qa / qb` iff `qa ≥ 0 ∧ qb > 0`, else
`None`.  The `f64` quotient is modelled as a rational. -/
def get_pool_price (pool : PoolDatum) (pool_value : Value) : Option ℚ :=
  let qa : Int :=
    pool_value.get pool.assets.1 -
      (if pool.assets.1 = ADA_ASSET_CLASS then pool.protocol_fees else 0)
  let qb : Int := pool_value.get pool.assets.2
  if 0 ≤ qa ∧ 0 < qb then some ((qa : ℚ) / (qb : ℚ)) else none

/-! ## historical_state.rs -/

/-- `BTreeMap<u64, T>` sorted insert, replacing an equal key in place. -/
def slotInsert {T : Type} : List (Nat × T) → Nat → T → List (Nat × T)
  | [], key, val => [(key, val)]
  | (k, v) :: rest, key, val =>
    if key < k then (key, val) :: (k, v) :: rest
    else if key = k then (key, val) :: rest
    else (k, v) :: slotInsert rest key val

/-- `BTreeMap<u64, T>::get`: the entry for a slot (first match in the list
model). -/
def slotLookup {T : Type} : List (Nat × T) → Nat → Option T
  | [], _ => none
  | (k, v) :: rest, key => if k = key then some v else slotLookup rest key

/-- `HistoricalState::update_slot`.  The `&mut T` handle is embedded by
returning the snapshot installed at `slot` together with the updated map;
`T::default()` is passed explicitly.  The `.unwrap()` on the equal-slot
path is a panic in Rust; it is embedded as a distinct error that the
theorems show unreachable on sorted maps. -/
def update_slot {T : Type} (slots : List (Nat × T)) (default : T) (slot : Nat) :
    Except String (T × List (Nat × T)) :=
  match slots.getLast? with
  | none => .ok (default, slotInsert slots slot default)
  | some (latest_slot, _) =>
    if latest_slot > slot then .error "cannot update slot"
    else if latest_slot = slot then
      match slotLookup slots slot with
      | some v => .ok (v, slots)
      | none => .error "panic: unwrap"
    else
      let last_entry :=
        (((slots.filter (fun e => e.1 < slot)).getLast?).map Prod.snd).getD default
      .ok (last_entry, slotInsert slots slot last_entry)

/-- The spec's phrase for the starting snapshot: the snapshot at the
largest stored slot below `s`, or the default when none exists below
`s`. -/
def latestBelow {T : Type} (slots : List (Nat × T)) (default : T) (slot : Nat) : T :=
  (((slots.filter (fun e => e.1 < slot)).getLast?).map Prod.snd).getD default

/-! ## sundaev3/indexer.rs : scoop selection

`handle_onchain_tx_bytes` collects into `scoops` one entry per spent pool
whose redeemer is a `PoolScoop` (with known settings).  Lines 310-313 then
decide what to execute:

    if scoops.len() > 1 {
        warn!(slot, tx = %tx.hash(), "one transaction contained multiple scoops");
    } else if let Some(mut scoop) = scoops.pop() {
        ... execute the scoop ...
    }

The scoops are treated opaquely by this step, so it is embedded
polymorphically: the Bool is whether the warning fired, the Option is the
scoop executed (`Vec::pop` takes the last element). -/
def executed_scoop {S : Type} (scoops : List S) : Bool × Option S :=
  if scoops.length > 1 then (true, none)
  else (false, scoops.getLast?)

/-! ## Concrete instances used by the end-to-end and counterexample theorems -/

deriving instance DecidableEq for Except

/-- The SBERRY policy id of builder.rs test `should_perform_simple_swap`
(hex 99b071ce8580d6a3a11b4902145adb8bfd0d2a03935af8cf66403e15). -/
def sberryPolicy : Bytes :=
  [153, 176, 113, 206, 133, 128, 214, 163, 161, 27, 73, 2, 20, 90, 219, 139,
   253, 13, 42, 3, 147, 90, 248, 207, 102, 64, 62, 21]

/-- The SBERRY token name (hex 534245525259). -/
def sberryToken : Bytes := [83, 66, 69, 82, 82, 89]

/-- The SBERRY asset class. -/
def sberryAC : AssetClass := ⟨sberryPolicy, sberryToken⟩

/-- Scenario S1 pool: value {ada: 33_668_000, SBERRY: 66_733_401}, lp
141_421, bid 30, ask 50, protocol_fees 3_668_000. -/
def s1_pool : SundaeV3Pool :=
  { value := (Value.new.insert ADA_ASSET_CLASS 33668000).insert sberryAC 66733401
    pool_datum :=
      { ident := []
        assets := (ADA_ASSET_CLASS, sberryAC)
        circulating_lp := 141421
        bid_fees_per_10_thousand := 30
        ask_fees_per_10_thousand := 50
        market_open := 0
        protocol_fees := 3668000 } }

/-- Scenario S1 settings: base_fee 332_000, simple_fee 168_000. -/
def s1_settings : SettingsDatum := { base_fee := 332000, simple_fee := 168000 }

/-- Scenario S1 order: Swap(ada 10_000_000 → SBERRY 16_146_411) on a UTxO
holding 13_000_000 ada, scoop_fee 0. -/
def s1_order : SundaeV3Order :=
  { value := Value.new.insert ADA_ASSET_CLASS 13000000
    datum :=
      { ident := none
        scoop_fee := 0
        action := .Swap ⟨[], [], 10000000⟩ ⟨sberryPolicy, sberryToken, 16146411⟩ } }

/-- A pool for the order-count counterexample. -/
def c3_pool : SundaeV3Pool :=
  { value := (Value.new.insert ADA_ASSET_CLASS 33668000).insert sberryAC 66733401
    pool_datum :=
      { ident := []
        assets := (ADA_ASSET_CLASS, sberryAC)
        circulating_lp := 141421
        bid_fees_per_10_thousand := 30
        ask_fees_per_10_thousand := 50
        market_open := 0
        protocol_fees := 3668000 } }

/-- Settings for the order-count counterexample. -/
def c3_settings : SettingsDatum := { base_fee := 332000, simple_fee := 168000 }

/-- An order whose swap pair matches neither pool asset, so that
`apply_order` fails with `CoinPairMismatch`. -/
def c3_bad_order : SundaeV3Order :=
  { value := Value.new
    datum :=
      { ident := none
        scoop_fee := 0
        action := .Swap ⟨[9], [9], 5⟩ ⟨[8], [8], 5⟩ } }

/-- A builder about to process a withdrawal of more LP than circulates:
circulating_lp 5. -/
def c10_builder : ScoopBuilder :=
  { pool :=
      { ident := []
        assets := (ADA_ASSET_CLASS, sberryAC)
        circulating_lp := 5
        bid_fees_per_10_thousand := 30
        ask_fees_per_10_thousand := 50
        market_open := 0
        protocol_fees := 0 }
    value := (Value.new.insert ADA_ASSET_CLASS 10000000).insert sberryAC 10000000
    expected_size := 1
    actual_size := 0
    settings := { base_fee := 0, simple_fee := 0 } }

/-- A withdrawal order asking for 7 LP (more than the 5 circulating). -/
def c10_order : SundaeV3Order :=
  { value := Value.new
    datum := { ident := none, scoop_fee := 0, action := .Withdrawal ⟨[1], [1], 7⟩ } }

/-! ## C2: end-to-end scenario S1 -/

/-- C2: scenario S1 — applying the single Swap(ada 10_000_000 → SBERRY
16_146_411) order through `ScoopBuilder.new s1_pool s1_settings 1` returns
Ok, `validate` returns Ok, and the builder's value is
{ada: 44_168_000, SBERRY: 50_087_617}. -/
theorem claim2_s1_simple_swap :
    (((ScoopBuilder.new s1_pool s1_settings 1).apply_order s1_order).2 = .ok ()) ∧
    (((ScoopBuilder.new s1_pool s1_settings 1).apply_order s1_order).1.validate = .ok ()) ∧
    ((ScoopBuilder.new s1_pool s1_settings 1).apply_order s1_order).1.value =
      (Value.new.insert ADA_ASSET_CLASS 44168000).insert sberryAC 50087617 := by
  refine ⟨?_, ?_, ?_⟩ <;> decide

/-! ## C3: a failed order still consumes a slot -/

/-- C3 counterexample: with expected size 1, a single order that fails
(here with `CoinPairMismatch`) still increments the applied count, so
`validate` returns Ok — not `WrongOrderCount {expected := 1, actual := 0}`
as the claim states. -/
theorem claim3_counterexample :
    (((ScoopBuilder.new c3_pool c3_settings 1).apply_order c3_bad_order).2 =
        .error .CoinPairMismatch) ∧
    ((ScoopBuilder.new c3_pool c3_settings 1).apply_order c3_bad_order).1.actual_size = 1 ∧
    ((ScoopBuilder.new c3_pool c3_settings 1).apply_order c3_bad_order).1.validate ≠
        .error (.WrongOrderCount 1 0) ∧
    ((ScoopBuilder.new c3_pool c3_settings 1).apply_order c3_bad_order).1.validate =
        .ok () := by
  refine ⟨?_, ?_, ?_, ?_⟩ <;> decide

/-- The error paths of `swap_core` leave the builder unchanged. -/
theorem swap_core_error_state (b : ScoopBuilder) (given taken : SingletonValue)
    (pool_gives pool_takes charge : Int) (e : ApplyOrderError)
    (h : (b.swap_core given taken pool_gives pool_takes charge).2 = .error e) :
    (b.swap_core given taken pool_gives pool_takes charge).1 = b := by
  unfold ScoopBuilder.swap_core at h ⊢
  rcases hc : choose_order_give pool_takes pool_gives given.amount (10000 - charge) with _ | og
  · simp only [hc]
  · simp only [hc] at h
    simp at h

/-- C3 amended: when `apply_order` fails, the pool datum, value, settings
and sizes are untouched except that `actual_size` is still incremented
(the slot is consumed); consequently `validate` afterwards returns Ok
exactly when the expected size equals the old count plus one, so a scoop
of expected size N with one failing and N−1 succeeding orders validates
Ok rather than reporting `WrongOrderCount {expected := N, actual := N−1}`. -/
theorem claim3_amended (b : ScoopBuilder) (order : SundaeV3Order) (e : ApplyOrderError)
    (h : (b.apply_order order).2 = .error e) :
    (b.apply_order order).1 = { b with actual_size := b.actual_size + 1 } ∧
    ((b.apply_order order).1.validate = .ok () ↔ b.expected_size = b.actual_size + 1) := by
  have hstate : (b.apply_order order).1 = { b with actual_size := b.actual_size + 1 } := by
    unfold ScoopBuilder.apply_order at h ⊢
    cases ha : order.datum.action with
    | Strategy auth => simp [ha] at h
    | Swap g t =>
      simp only [ha] at h ⊢
      split_ifs at h ⊢ with hc1 hc2
      · exact swap_core_error_state _ _ _ _ _ _ _ h
      · exact swap_core_error_state _ _ _ _ _ _ _ h
      · rfl
    | Deposit a c =>
      simp only [ha] at h ⊢
      split_ifs at h ⊢ <;> first | rfl | simp_all
    | Withdrawal lp => simp [ha] at h
    | Donation a c => simp [ha] at h
    | Record asset => simp [ha] at h
  refine ⟨hstate, ?_⟩
  rw [hstate]
  unfold ScoopBuilder.validate
  by_cases hsz : b.expected_size = b.actual_size + 1 <;> simp [hsz]

/-- C3 amended, witness: the concrete counterexample scenario instantiates
the amended claim (expected size 1, old count 0). -/
theorem claim3_amended_witness :
    ((ScoopBuilder.new c3_pool c3_settings 1).apply_order c3_bad_order).1 =
      { ScoopBuilder.new c3_pool c3_settings 1 with actual_size := 1 } ∧
    (((ScoopBuilder.new c3_pool c3_settings 1).apply_order c3_bad_order).1.validate = .ok ()
      ↔ (ScoopBuilder.new c3_pool c3_settings 1).expected_size = 1) :=
  claim3_amended (ScoopBuilder.new c3_pool c3_settings 1) c3_bad_order
    .CoinPairMismatch (by decide)

/-! ## C7: at most one scoop, but not the last when several -/

/-- C7 counterexample: with two scoops in one transaction the indexer
warns but executes none of them, not the last one as claimed. -/
theorem claim7_counterexample :
    executed_scoop ([0, 1] : List Nat) = (true, none) ∧
    (executed_scoop ([0, 1] : List Nat)).2 ≠ some 1 := by
  refine ⟨?_, ?_⟩ <;> decide

/-- C7 amended: when more than one spent pool carries a `PoolScoop`
redeemer the indexer warns and executes no scoop at all; with at most one
it does not warn and executes the sole scoop if any; hence at most one
scoop is executed per transaction, and a scoop is executed only when it is
the unique one. -/
theorem claim7_amended {S : Type} (scoops : List S) :
    (scoops.length > 1 → executed_scoop scoops = (true, none)) ∧
    (scoops.length ≤ 1 → executed_scoop scoops = (false, scoops.getLast?)) ∧
    (∀ s, (executed_scoop scoops).2 = some s → scoops = [s]) := by
  refine ⟨fun h => ?_, fun h => ?_, fun s h => ?_⟩
  · simp [executed_scoop, h]
  · simp [executed_scoop, Nat.not_lt.mpr h]
  · rcases scoops with _ | ⟨a, _ | ⟨c, tl⟩⟩
    · simp [executed_scoop] at h
    · simp only [executed_scoop] at h
      simp at h
      simp [h]
    · have hgt : 1 < (a :: c :: tl).length := by
        simp only [List.length_cons]
        omega
      simp [executed_scoop, hgt] at h

/-- C7 amended, witness: the two-scoop and one-scoop cases at concrete
lists. -/
theorem claim7_amended_witness :
    executed_scoop ([0, 1] : List Nat) = (true, none) ∧
    executed_scoop ([7] : List Nat) = (false, some 7) :=
  ⟨(claim7_amended [0, 1]).1 (by decide),
   by rw [(claim7_amended [7]).2.1 (by decide)]; rfl⟩

/-! ## C10: withdrawals are unchecked -/

/-- C10: on a Withdrawal order, `apply_order` performs no sufficiency or
positivity check: provided `circulating_lp ≠ 0` (the unguarded divisions'
precondition — num-bigint division panics on zero), it returns Ok and
decrements `circulating_lp` by `lp.amount`; when `lp.amount` exceeds a
non-negative `circulating_lp` the result is negative, violating the pool
invariant `circulating_lp ≥ 0`. -/
theorem claim10_withdrawal (b : ScoopBuilder) (order : SundaeV3Order) (lp : SingletonValue)
    (haction : order.datum.action = .Withdrawal lp)
    (hlp : b.pool.circulating_lp ≠ 0) :
    (b.apply_order order).2 = .ok () ∧
    (b.apply_order order).1.pool.circulating_lp = b.pool.circulating_lp - lp.amount ∧
    (0 ≤ b.pool.circulating_lp → b.pool.circulating_lp < lp.amount →
      (b.apply_order order).1.pool.circulating_lp < 0) := by
  unfold ScoopBuilder.apply_order
  rw [haction]
  refine ⟨rfl, rfl, fun h1 h2 => ?_⟩
  simp only
  omega

/-- C10 witness: withdrawing 7 LP from a pool with 5 circulating LP
succeeds and leaves `circulating_lp = -2 < 0`. -/
theorem claim10_witness :
    (c10_builder.apply_order c10_order).2 = .ok () ∧
    (c10_builder.apply_order c10_order).1.pool.circulating_lp = 5 - 7 ∧
    (c10_builder.apply_order c10_order).1.pool.circulating_lp < 0 := by
  have h := claim10_withdrawal c10_builder c10_order ⟨[1], [1], 7⟩ (by decide) (by decide)
  exact ⟨h.1, h.2.1, h.2.2 (by decide) (by decide)⟩

/-! ## C6: pool price -/

/-- C6: `get_pool_price` returns `some (qa / qb)` iff `qa ≥ 0 ∧ qb > 0`
and `none` otherwise, where `qa` is the pool value's quantity of asset a
minus `protocol_fees` when asset a is ada and `qb` is the quantity of
asset b; in particular it returns `none` whenever `qb = 0`.  (The function
is modelled from the spec: see `get_pool_price`.) -/
theorem claim6_get_pool_price (pool : PoolDatum) (pool_value : Value) :
    (get_pool_price pool pool_value =
        some (((pool_value.get pool.assets.1 -
            (if pool.assets.1 = ADA_ASSET_CLASS then pool.protocol_fees else 0) : Int) : ℚ) /
          ((pool_value.get pool.assets.2 : Int) : ℚ)) ↔
      0 ≤ pool_value.get pool.assets.1 -
            (if pool.assets.1 = ADA_ASSET_CLASS then pool.protocol_fees else 0) ∧
      0 < pool_value.get pool.assets.2) ∧
    (¬ (0 ≤ pool_value.get pool.assets.1 -
            (if pool.assets.1 = ADA_ASSET_CLASS then pool.protocol_fees else 0) ∧
        0 < pool_value.get pool.assets.2) →
      get_pool_price pool pool_value = none) ∧
    (pool_value.get pool.assets.2 = 0 → get_pool_price pool pool_value = none) := by
  set qa := pool_value.get pool.assets.1 -
    (if pool.assets.1 = ADA_ASSET_CLASS then pool.protocol_fees else 0) with hqa
  set qb := pool_value.get pool.assets.2 with hqb
  have hprice : get_pool_price pool pool_value =
      if 0 ≤ qa ∧ 0 < qb then some ((qa : ℚ) / (qb : ℚ)) else none := rfl
  rw [hprice]
  by_cases hcond : 0 ≤ qa ∧ 0 < qb
  · rw [if_pos hcond]
    exact ⟨⟨fun _ => hcond, fun _ => rfl⟩, fun hc => absurd hcond hc,
      fun hb => absurd hcond.2 (by rw [hb]; exact lt_irrefl 0)⟩
  · rw [if_neg hcond]
    exact ⟨iff_of_false (by simp) hcond, fun _ => rfl, fun _ => rfl⟩

/-- C6 witness: an empty pool value has `qb = 0`, so the price is `none`. -/
theorem claim6_witness :
    get_pool_price
      { ident := []
        assets := (ADA_ASSET_CLASS, sberryAC)
        circulating_lp := 0
        bid_fees_per_10_thousand := 0
        ask_fees_per_10_thousand := 0
        market_open := 0
        protocol_fees := 0 } Value.new = none :=
  (claim6_get_pool_price _ _).2.2 (by decide)

/-! ## C5: order-value validation of swaps -/

/-- C5: for a Swap order, `validate_order_value` (i) returns
`GivesZeroTokens` whenever `gives.amount = 0`; (ii) for a swap giving ada,
returns Ok when the UTxO's ada equals
`gives.amount + scoop_fee + 2_000_000`; and (iii) returns
`HasInsufficientTokens` with asset = ada when the UTxO holds one less. -/
theorem claim5_validate_order_value_swap
    (datum : OrderDatum) (value : Value) (gives takes : SingletonValue)
    (haction : datum.action = .Swap gives takes) :
    (gives.amount = 0 → validate_order_value datum value = .error .GivesZeroTokens) ∧
    (gives.asset_class = ADA_ASSET_CLASS → 0 < gives.amount →
      value.get ADA_ASSET_CLASS = gives.amount + datum.scoop_fee + 2000000 →
      validate_order_value datum value = .ok ()) ∧
    (gives.asset_class = ADA_ASSET_CLASS → 0 < gives.amount →
      value.get ADA_ASSET_CLASS = gives.amount + datum.scoop_fee + 2000000 - 1 →
      validate_order_value datum value =
        .error (.HasInsufficientTokens ADA_ASSET_CLASS
          (gives.amount + (ADA_RIDER + datum.scoop_fee))
          (gives.amount + datum.scoop_fee + 2000000 - 1))) := by
  refine ⟨fun h0 => ?_, fun hada hpos heq => ?_, fun hada hpos heq => ?_⟩
  · simp only [validate_order_value, haction]
    rw [if_pos (show ¬ 0 < gives.amount by omega)]
  · simp only [validate_order_value, haction, Value.get_asset_class, hada, heq,
      eq_self_iff_true, if_true, ADA_RIDER]
    split_ifs <;> first | rfl | (exfalso; omega)
  · simp only [validate_order_value, haction, Value.get_asset_class, hada, heq,
      eq_self_iff_true, if_true, ADA_RIDER]
    split_ifs <;> first | rfl | (exfalso; omega)

/-- C5 witness: (i) a zero-amount swap is rejected; (ii) the swap of the
validation.rs test (scoop_fee 1_000_000, 1_000_000 ada offered) passes on
a 4_000_000-ada UTxO; (iii) it fails with `HasInsufficientTokens` on ada
with a 3_999_999-ada UTxO. -/
theorem claim5_witness :
    validate_order_value
      { ident := none, scoop_fee := 0, action := .Swap ⟨[], [], 0⟩ ⟨[1], [1], 5⟩ }
      Value.new = .error .GivesZeroTokens ∧
    validate_order_value
      { ident := none, scoop_fee := 1000000, action := .Swap ⟨[], [], 1000000⟩ ⟨[1], [1], 5⟩ }
      (Value.new.insert ADA_ASSET_CLASS 4000000) = .ok () ∧
    validate_order_value
      { ident := none, scoop_fee := 1000000, action := .Swap ⟨[], [], 1000000⟩ ⟨[1], [1], 5⟩ }
      (Value.new.insert ADA_ASSET_CLASS 3999999) =
      .error (.HasInsufficientTokens ADA_ASSET_CLASS 4000000 3999999) := by
  refine ⟨(claim5_validate_order_value_swap _ Value.new ⟨[], [], 0⟩ ⟨[1], [1], 5⟩ rfl).1 rfl,
    ?_, ?_⟩
  · exact (claim5_validate_order_value_swap _ _ ⟨[], [], 1000000⟩ ⟨[1], [1], 5⟩ rfl).2.1
      rfl (by decide) (by decide)
  · have h := (claim5_validate_order_value_swap
      { ident := none, scoop_fee := 1000000, action := .Swap ⟨[], [], 1000000⟩ ⟨[1], [1], 5⟩ }
      (Value.new.insert ADA_ASSET_CLASS 3999999) ⟨[], [], 1000000⟩ ⟨[1], [1], 5⟩ rfl).2.2
      rfl (by decide) (by decide)
    exact h.trans (by decide)

/-! ## C9: validate_order short-circuits in a fixed order -/

/-- The pool used by the C9 witness. -/
def c9_pool : PoolDatum :=
  { ident := []
    assets := (ADA_ASSET_CLASS, sberryAC)
    circulating_lp := 1
    bid_fees_per_10_thousand := 30
    ask_fees_per_10_thousand := 50
    market_open := 0
    protocol_fees := 0 }

/-- C9: `validate_order` short-circuits in a fixed order, for every
estimate function: a `ValueError` from `validate_order_value` is returned
as-is without consulting the pool or the estimate; a `PoolError` from
`validate_order_for_pool` is returned when (and a wrapped `PoolError` is
returned only when) the value check passed; the estimate's verdict decides
the result only when both earlier checks passed. -/
theorem claim9_validate_order_short_circuit
    (estimate : OrderDatum → PoolDatum → Value → Except PoolError Unit)
    (order : OrderDatum) (value : Value) (pool : PoolDatum) (pool_value : Value) :
    (∀ e, validate_order_value order value = .error e →
      validate_order estimate order value pool pool_value = .error (.ValueError e)) ∧
    (validate_order_value order value = .ok () → ∀ pe,
      validate_order_for_pool order pool = .error pe →
      validate_order estimate order value pool pool_value = .error (.PoolError pe)) ∧
    (∀ pe, validate_order estimate order value pool pool_value = .error (.PoolError pe) →
      validate_order_value order value = .ok ()) ∧
    (validate_order_value order value = .ok () →
      validate_order_for_pool order pool = .ok () →
      validate_order estimate order value pool pool_value =
        match estimate order pool pool_value with
        | .ok _ => .ok ()
        | .error e => .error (.PoolError e)) := by
  refine ⟨fun e he => ?_, fun hv pe hp => ?_, fun pe hmain => ?_, fun hv hp => ?_⟩
  · simp [validate_order, he]
  · simp [validate_order, hv, hp]
  · unfold validate_order at hmain
    rcases h1 : validate_order_value order value with e1 | u
    · rw [h1] at hmain
      simp at hmain
    · cases u
      rfl
  · rcases hest : estimate order pool pool_value with e | u <;>
      simp [validate_order, hv, hp, hest]

/-- C9 witness: with the always-Ok estimate and an order whose swap gives
zero tokens, `validate_order` returns the wrapped `GivesZeroTokens`. -/
theorem claim9_witness :
    validate_order (fun _ _ _ => .ok ())
      { ident := none, scoop_fee := 0, action := .Swap ⟨[], [], 0⟩ ⟨[1], [1], 5⟩ }
      Value.new c9_pool Value.new = .error (.ValueError .GivesZeroTokens) :=
  (claim9_validate_order_short_circuit (fun _ _ _ => .ok ())
    { ident := none, scoop_fee := 0, action := .Swap ⟨[], [], 0⟩ ⟨[1], [1], 5⟩ }
    Value.new c9_pool Value.new).1 .GivesZeroTokens (by decide)

/-! ## C4: HistoricalState::update_slot -/

/-- An element produced by `getLast?` is a member of the list. -/
theorem mem_of_getLast?_eq {α : Type} {l : List α} {a : α} (h : l.getLast? = some a) :
    a ∈ l := by
  induction l with
  | nil => simp at h
  | cons hd tl ih =>
    rcases tl with _ | ⟨b, tl2⟩
    · simp at h
      simp [h]
    · rw [List.getLast?_cons_cons] at h
      exact List.mem_cons_of_mem _ (ih h)

/-- In a key-sorted slot map, every key is at most the last key. -/
theorem sorted_keys_le_getLast {T : Type} {m : List (Nat × T)} {L : Nat × T}
    (hs : m.Pairwise (fun a b => a.1 < b.1)) (hL : m.getLast? = some L) :
    ∀ e ∈ m, e.1 ≤ L.1 := by
  induction m with
  | nil => simp at hL
  | cons hd tl ih =>
    intro e he
    rcases tl with _ | ⟨hd2, tl2⟩
    · simp at hL
      rcases List.mem_singleton.mp he with rfl
      simp [hL]
    · rw [List.getLast?_cons_cons] at hL
      rcases List.mem_cons.mp he with rfl | he
      · have hLmem : L ∈ hd2 :: tl2 := mem_of_getLast?_eq hL
        have := (List.pairwise_cons.mp hs).1 L hLmem
        omega
      · exact ih (List.pairwise_cons.mp hs).2 hL e he

/-- A present key makes `slotLookup` succeed with its (unique, by key
distinctness) value. -/
theorem slotLookup_eq_of_mem_nodup {T : Type} {m : List (Nat × T)} {k : Nat} {v : T}
    (hnd : (m.map Prod.fst).Nodup) (h : (k, v) ∈ m) : slotLookup m k = some v := by
  induction m with
  | nil => cases h
  | cons hd tl ih =>
    rcases hd with ⟨k0, v0⟩
    simp only [List.map_cons, List.nodup_cons] at hnd
    rcases List.mem_cons.mp h with heq | hmem
    · injection heq with h1 h2
      subst h1; subst h2
      simp [slotLookup]
    · have hne : k0 ≠ k := by
        intro hk
        exact hnd.1 (hk ▸ List.mem_map_of_mem Prod.fst hmem)
      simp only [slotLookup, if_neg hne]
      exact ih hnd.2 hmem

/-- C4: on a key-sorted slot map, `update_slot` errors iff the highest
stored slot (the last entry; every key is ≤ its key) is strictly greater
than `s`; when `s` equals the highest stored slot it returns the existing
snapshot and leaves the map unchanged; and when every stored slot is below
`s` (as when the map is empty) it succeeds with a copy of the snapshot at
the largest stored slot below `s`, or the default when none exists. -/
theorem claim4_update_slot {T : Type} (slots : List (Nat × T)) (default : T) (s : Nat)
    (hs : slots.Pairwise (fun a b => a.1 < b.1)) :
    (∀ L, slots.getLast? = some L → ∀ e ∈ slots, e.1 ≤ L.1) ∧
    ((∃ err, update_slot slots default s = .error err) ↔
      (∃ L, slots.getLast? = some L ∧ s < L.1)) ∧
    (∀ t, slots.getLast? = some (s, t) → update_slot slots default s = .ok (t, slots)) ∧
    ((∀ e ∈ slots, e.1 < s) →
      update_slot slots default s =
        .ok (latestBelow slots default s, slotInsert slots s (latestBelow slots default s))) := by
  have hnd : (slots.map Prod.fst).Nodup :=
    List.Pairwise.imp (fun h => Nat.ne_of_lt h) (List.Pairwise.map Prod.fst (fun _ _ h => h) hs)
  refine ⟨fun L hL => sorted_keys_le_getLast hs hL, ?_, ?_, ?_⟩
  · rcases hL : slots.getLast? with _ | ⟨L1, L2⟩
    · have hnil : slots = [] := List.getLast?_eq_none.mp hL
      subst hnil
      constructor
      · rintro ⟨err, herr⟩
        simp [update_slot] at herr
      · rintro ⟨L, hsome, _⟩
        simp at hsome
    · by_cases hgt : L1 > s
      · refine iff_of_true ⟨"cannot update slot", ?_⟩ ⟨(L1, L2), rfl, hgt⟩
        simp [update_slot, hL, hgt]
      · refine iff_of_false ?_ ?_
        · rintro ⟨err, herr⟩
          by_cases heq : L1 = s
          · subst heq
            have hmem : (L1, L2) ∈ slots := mem_of_getLast?_eq hL
            have hlook := slotLookup_eq_of_mem_nodup hnd hmem
            simp [update_slot, hL, hgt, hlook] at herr
          · simp [update_slot, hL, hgt, heq] at herr
        · rintro ⟨L, hsome, hlt⟩
          injection hsome with hsome
          subst hsome
          simp only at hlt
          omega
  · intro t ht
    have hmem : (s, t) ∈ slots := mem_of_getLast?_eq ht
    have hlook := slotLookup_eq_of_mem_nodup hnd hmem
    simp [update_slot, ht, hlook]
  · intro hall
    rcases hL : slots.getLast? with _ | ⟨L1, L2⟩
    · have hnil : slots = [] := List.getLast?_eq_none.mp hL
      subst hnil
      rfl
    · have hlt : L1 < s := hall _ (mem_of_getLast?_eq hL)
      have hgt : ¬ L1 > s := by omega
      have hne : L1 ≠ s := by omega
      simp [update_slot, hL, hgt, hne, latestBelow]

/-- C4 witness: on the sorted map {1 ↦ 10, 5 ↦ 20}, updating slot 7 copies
the snapshot at slot 5, updating slot 5 returns the existing snapshot with
the map unchanged, and updating slot 3 errors. -/
theorem claim4_witness :
    update_slot [((1 : Nat), (10 : Int)), (5, 20)] 0 7 =
      .ok (20, [(1, 10), (5, 20), (7, 20)]) ∧
    update_slot [((1 : Nat), (10 : Int)), (5, 20)] 0 5 = .ok (20, [(1, 10), (5, 20)]) ∧
    (∃ err, update_slot [((1 : Nat), (10 : Int)), (5, 20)] 0 3 = .error err) := by
  refine ⟨?_, ?_, ?_⟩
  · have h := (claim4_update_slot [((1 : Nat), (10 : Int)), (5, 20)] 0 7 (by decide)).2.2.2
      (by decide)
    exact h.trans (by decide)
  · exact (claim4_update_slot [((1 : Nat), (10 : Int)), (5, 20)] 0 5 (by decide)).2.2.1 20
      (by decide)
  · exact (claim4_update_slot [((1 : Nat), (10 : Int)), (5, 20)] 0 3 (by decide)).2.1.mpr
      ⟨(5, 20), by decide, by decide⟩

/-! ## C8: the Value representation invariant -/

/-- The inner-map invariant: non-empty, and no zero amount retained. -/
def innerInv (tokens : List (Bytes × Int)) : Prop :=
  tokens ≠ [] ∧ ∀ e ∈ tokens, e.2 ≠ 0

/-- The Value representation invariant of the spec: no zero-amount entry
and no empty inner mapping is retained. -/
def Value.Inv (v : Value) : Prop := ∀ p ∈ v.assets, innerInv p.2

/-- The structural guarantees a `BTreeMap` representation always has:
distinct outer keys and distinct inner keys. -/
def Value.WF (v : Value) : Prop :=
  (v.assets.map Prod.fst).Nodup ∧ ∀ p ∈ v.assets, (p.2.map Prod.fst).Nodup

/-- Members of `mapInsert m k v` are `(k, v)` or members of `m`. -/
theorem mem_mapInsert {V : Type} {m : List (Bytes × V)} {k : Bytes} {v : V} {p : Bytes × V}
    (h : p ∈ mapInsert m k v) : p = (k, v) ∨ p ∈ m := by
  induction m with
  | nil =>
    simp only [mapInsert, List.mem_singleton] at h
    exact Or.inl h
  | cons hd tl ih =>
    rcases hd with ⟨k0, v0⟩
    simp only [mapInsert] at h
    split_ifs at h with h1 h2
    · rcases List.mem_cons.mp h with h | h
      · exact Or.inl h
      · exact Or.inr h
    · rcases List.mem_cons.mp h with h | h
      · exact Or.inl h
      · exact Or.inr (List.mem_cons_of_mem _ h)
    · rcases List.mem_cons.mp h with h | h
      · exact Or.inr (h ▸ List.mem_cons_self _ _)
      · rcases ih h with h | h
        · exact Or.inl h
        · exact Or.inr (List.mem_cons_of_mem _ h)

/-- `mapInsert` never yields the empty map. -/
theorem mapInsert_ne_nil {V : Type} (m : List (Bytes × V)) (k : Bytes) (v : V) :
    mapInsert m k v ≠ [] := by
  cases m with
  | nil => simp [mapInsert]
  | cons hd tl =>
    rcases hd with ⟨k0, v0⟩
    simp only [mapInsert]
    split_ifs <;> simp

/-- Members of `mapReplace m k v` are `(k, v)` or members of `m`. -/
theorem mem_mapReplace {V : Type} {m : List (Bytes × V)} {k : Bytes} {v : V} {p : Bytes × V}
    (h : p ∈ mapReplace m k v) : p = (k, v) ∨ p ∈ m := by
  induction m with
  | nil => simp [mapReplace] at h
  | cons hd tl ih =>
    rcases hd with ⟨k0, v0⟩
    simp only [mapReplace] at h
    split_ifs at h with h1
    · rcases List.mem_cons.mp h with h | h
      · exact Or.inl h
      · exact Or.inr (List.mem_cons_of_mem _ h)
    · rcases List.mem_cons.mp h with h | h
      · exact Or.inr (h ▸ List.mem_cons_self _ _)
      · rcases ih h with h | h
        · exact Or.inl h
        · exact Or.inr (List.mem_cons_of_mem _ h)

/-- Members of `mapRemove m k` are members of `m`. -/
theorem mem_mapRemove {V : Type} {m : List (Bytes × V)} {k : Bytes} {p : Bytes × V}
    (h : p ∈ mapRemove m k) : p ∈ m := by
  induction m with
  | nil => simp [mapRemove] at h
  | cons hd tl ih =>
    rcases hd with ⟨k0, v0⟩
    simp only [mapRemove] at h
    split_ifs at h with h1
    · exact List.mem_cons_of_mem _ h
    · rcases List.mem_cons.mp h with h | h
      · exact h ▸ List.mem_cons_self _ _
      · exact List.mem_cons_of_mem _ (ih h)

/-- A successful `mapGet` witnesses membership. -/
theorem mapGet_some_mem {V : Type} {m : List (Bytes × V)} {k : Bytes} {w : V}
    (h : mapGet m k = some w) : (k, w) ∈ m := by
  induction m with
  | nil => simp [mapGet] at h
  | cons hd tl ih =>
    rcases hd with ⟨k0, v0⟩
    simp only [mapGet] at h
    split_ifs at h with h1
    · injection h with h2
      subst h2
      subst h1
      exact List.mem_cons_self _ _
    · exact List.mem_cons_of_mem _ (ih h)

/-- `mapGet` misses exactly when no entry has the key. -/
theorem mapGet_eq_none_iff {V : Type} {m : List (Bytes × V)} {k : Bytes} :
    mapGet m k = none ↔ ∀ p ∈ m, p.1 ≠ k := by
  induction m with
  | nil => simp [mapGet]
  | cons hd tl ih =>
    rcases hd with ⟨k0, v0⟩
    simp only [mapGet]
    split_ifs with h1
    · simp [h1]
    · simp [ih, h1]

/-- Looking up the freshly inserted key finds the new value. -/
theorem mapGet_mapInsert_self {V : Type} (m : List (Bytes × V)) (k : Bytes) (v : V) :
    mapGet (mapInsert m k v) k = some v := by
  induction m with
  | nil => simp [mapInsert, mapGet]
  | cons hd tl ih =>
    rcases hd with ⟨k0, v0⟩
    simp only [mapInsert]
    split_ifs with h1 h2
    · simp [mapGet]
    · simp [mapGet, h2]
    · simp only [mapGet, if_neg (fun hh : k0 = k => h2 hh.symm)]
      exact ih

/-- Replacing a present key is visible to `mapGet`. -/
theorem mapGet_mapReplace_some {V : Type} {m : List (Bytes × V)} {k : Bytes} {w : V} (v : V)
    (h : mapGet m k = some w) : mapGet (mapReplace m k v) k = some v := by
  induction m with
  | nil => simp [mapGet] at h
  | cons hd tl ih =>
    rcases hd with ⟨k0, v0⟩
    simp only [mapGet, mapReplace] at h ⊢
    split_ifs at h ⊢ with h1
    · simp [mapGet]
    · simp only [mapGet, if_neg h1]
      exact ih h

/-- With distinct keys, no member of `mapRemove m k` has key `k`. -/
theorem mapRemove_key_ne {V : Type} {m : List (Bytes × V)} {k : Bytes} {p : Bytes × V}
    (hnd : (m.map Prod.fst).Nodup) (h : p ∈ mapRemove m k) : p.1 ≠ k := by
  induction m with
  | nil => simp [mapRemove] at h
  | cons hd tl ih =>
    rcases hd with ⟨k0, v0⟩
    simp only [List.map_cons, List.nodup_cons] at hnd
    simp only [mapRemove] at h
    split_ifs at h with h1
    · intro hk
      exact hnd.1 ((h1 ▸ hk : p.1 = k0) ▸ List.mem_map_of_mem Prod.fst h)
    · rcases List.mem_cons.mp h with rfl | h
      · exact h1
      · exact ih hnd.2 h

/-- With distinct keys, the removed key is gone for `mapGet`. -/
theorem mapGet_mapRemove_none {V : Type} {m : List (Bytes × V)} {k : Bytes}
    (hnd : (m.map Prod.fst).Nodup) : mapGet (mapRemove m k) k = none :=
  mapGet_eq_none_iff.mpr (fun _ hp => mapRemove_key_ne hnd hp)

/-- With distinct keys, a member of `mapReplace m k v` whose key is `k`
must be the replacement entry. -/
theorem mem_mapReplace_key {V : Type} {m : List (Bytes × V)} {k : Bytes} {v : V}
    {p : Bytes × V} (hnd : (m.map Prod.fst).Nodup) (h : p ∈ mapReplace m k v)
    (hk : p.1 = k) : p = (k, v) := by
  induction m with
  | nil => simp [mapReplace] at h
  | cons hd tl ih =>
    rcases hd with ⟨k0, v0⟩
    simp only [List.map_cons, List.nodup_cons] at hnd
    simp only [mapReplace] at h
    split_ifs at h with h1
    · rcases List.mem_cons.mp h with rfl | h
      · rfl
      · exact absurd ((hk.trans h1.symm) ▸ List.mem_map_of_mem Prod.fst h) hnd.1
    · rcases List.mem_cons.mp h with rfl | h
      · exact absurd hk h1
      · exact ih hnd.2 h

/-- `Value.delete` preserves the representation invariant. -/
theorem Inv_delete {v : Value} {ac : AssetClass} (hInv : v.Inv) : (v.delete ac).Inv := by
  unfold Value.delete
  rcases hg : mapGet v.assets ac.policy with _ | tokens
  · exact hInv
  · simp only
    split_ifs with hemp
    · intro p hp
      exact hInv p (mem_mapRemove hp)
    · intro p hp
      rcases mem_mapReplace hp with rfl | hp
      · refine ⟨fun hnil => hemp (by simp only at hnil; simp [hnil]), fun e he => ?_⟩
        exact (hInv _ (mapGet_some_mem hg)).2 e (mem_mapRemove he)
      · exact hInv p hp

/-- `Value.insert` preserves the representation invariant. -/
theorem Inv_insert {v : Value} {ac : AssetClass} {n : Int} (hInv : v.Inv) :
    (v.insert ac n).Inv := by
  unfold Value.insert
  split_ifs with hz
  · exact Inv_delete hInv
  · rcases hg : mapGet v.assets ac.policy with _ | tokens
    · intro p hp
      rcases mem_mapInsert hp with rfl | hp
      · refine ⟨by simp, fun e he => ?_⟩
        rcases List.mem_singleton.mp he with rfl
        exact hz
      · exact hInv p hp
    · intro p hp
      rcases mem_mapReplace hp with rfl | hp
      · refine ⟨mapInsert_ne_nil _ _ _, fun e he => ?_⟩
        rcases mem_mapInsert he with rfl | he
        · exact hz
        · exact (hInv _ (mapGet_some_mem hg)).2 e he
      · exact hInv p hp

/-- Inserting a non-zero quantity is visible to `Value.get`. -/
theorem get_insert_self {v : Value} {ac : AssetClass} {n : Int} (hn : n ≠ 0) :
    (v.insert ac n).get ac = n := by
  unfold Value.insert Value.get
  rw [if_neg hn]
  rcases hg : mapGet v.assets ac.policy with _ | tokens
  · simp [mapGet_mapInsert_self, mapGet]
  · simp [mapGet_mapReplace_some _ hg, mapGet_mapInsert_self]

/-- After `insert v ac 0` the quantity reads as 0. -/
theorem get_insert_zero {v : Value} {ac : AssetClass} (hWF : v.WF) :
    (v.insert ac 0).get ac = 0 := by
  unfold Value.insert
  rw [if_pos rfl]
  unfold Value.delete Value.get
  rcases hg : mapGet v.assets ac.policy with _ | tokens
  · simp [hg]
  · simp only
    split_ifs with hemp
    · simp [mapGet_mapRemove_none hWF.1]
    · simp [mapGet_mapReplace_some _ hg,
        mapGet_mapRemove_none (hWF.2 _ (mapGet_some_mem hg))]

/-- After `insert v ac 0` no inner entry for `ac` remains. -/
theorem insert_zero_not_contains {v : Value} {ac : AssetClass} (hWF : v.WF) :
    ∀ p ∈ (v.insert ac 0).assets, p.1 = ac.policy → ∀ e ∈ p.2, e.1 ≠ ac.token := by
  unfold Value.insert
  rw [if_pos rfl]
  unfold Value.delete
  rcases hg : mapGet v.assets ac.policy with _ | tokens
  · intro p hp hpol
    exact absurd hpol (mapGet_eq_none_iff.mp hg p hp)
  · simp only
    split_ifs with hemp
    · intro p hp hpol
      exact absurd hpol (mapRemove_key_ne hWF.1 hp)
    · intro p hp hpol e he
      rcases mem_mapReplace_key hWF.1 hp hpol with rfl
      exact mapRemove_key_ne (hWF.2 _ (mapGet_some_mem hg)) he

/-- C8: on any well-formed Value satisfying the representation invariant
(no zero amounts, no empty inner mapping), `insert`, `delete`, `add` and
`subtract` preserve the invariant; `get (insert v ac n) ac = n` for
`n ≠ 0`; and after `insert v ac 0` the quantity reads 0 and the mapping
retains no entry for `ac`. -/
theorem claim8_value_invariant (v : Value) (ac : AssetClass) (n : Int)
    (hWF : v.WF) (hInv : v.Inv) :
    (v.insert ac n).Inv ∧ (v.delete ac).Inv ∧
    (v.add ac n).Inv ∧ (v.subtract ac n).Inv ∧
    (n ≠ 0 → (v.insert ac n).get ac = n) ∧
    ((v.insert ac 0).get ac = 0 ∧
      ∀ p ∈ (v.insert ac 0).assets, p.1 = ac.policy → ∀ e ∈ p.2, e.1 ≠ ac.token) :=
  ⟨Inv_insert hInv, Inv_delete hInv, Inv_insert hInv, Inv_insert hInv,
   fun hn => get_insert_self hn,
   get_insert_zero hWF, insert_zero_not_contains hWF⟩

/-- C8 witness: the invariant facts at the concrete value {ada: 5} with
the ada asset class and quantity 3. -/
theorem claim8_witness :
    ((⟨[([], [([], 5)])]⟩ : Value).insert ADA_ASSET_CLASS 3).Inv ∧
    ((⟨[([], [([], 5)])]⟩ : Value).delete ADA_ASSET_CLASS).Inv ∧
    ((⟨[([], [([], 5)])]⟩ : Value).add ADA_ASSET_CLASS 3).Inv ∧
    ((⟨[([], [([], 5)])]⟩ : Value).subtract ADA_ASSET_CLASS 3).Inv ∧
    ((3 : Int) ≠ 0 → ((⟨[([], [([], 5)])]⟩ : Value).insert ADA_ASSET_CLASS 3).get
        ADA_ASSET_CLASS = 3) ∧
    (((⟨[([], [([], 5)])]⟩ : Value).insert ADA_ASSET_CLASS 0).get ADA_ASSET_CLASS = 0 ∧
      ∀ p ∈ ((⟨[([], [([], 5)])]⟩ : Value).insert ADA_ASSET_CLASS 0).assets,
        p.1 = ADA_ASSET_CLASS.policy → ∀ e ∈ p.2, e.1 ≠ ADA_ASSET_CLASS.token) :=
  claim8_value_invariant ⟨[([], [([], 5)])]⟩ ADA_ASSET_CLASS 3
    (by constructor <;> decide) (by intro p hp; simp at hp; simp [hp, innerInv])

/-! ## C1: swap candidate selection -/

/-- The spec's `floor_takes(og)`:
`⌊(pool_takes * diff * og) / (pool_gives * 10_000 + og * diff)⌋`. -/
def floor_takes (pool_takes pool_gives diff og : Int) : Int :=
  Int.tdiv (pool_takes * diff * og) (pool_gives * 10000 + og * diff)

/-- The spec's efficiency predicate:
`efficient(og) ≡ floor_takes(og − 1) < floor_takes(og)`. -/
def efficient_spec (pool_takes pool_gives diff og : Int) : Prop :=
  floor_takes pool_takes pool_gives diff (og - 1) <
    floor_takes pool_takes pool_gives diff og

/-- The spec's recomputed minimum give `g0`. -/
def order_give_g0 (pool_takes pool_gives amount diff : Int) : Int :=
  order_give_base pool_takes pool_gives diff (swap_takes pool_takes pool_gives amount diff)

/-- The claim's acceptance predicate for a candidate give: efficient and at
most the offered amount. -/
def good_give (pool_takes pool_gives amount diff og : Int) : Prop :=
  efficient_spec pool_takes pool_gives diff og ∧ og ≤ amount

/-- The source's `is_efficient` agrees with the spec's predicate
`floor_takes(og − 1) < floor_takes(og)`: its numerator and denominator are
the expanded forms of the spec's. -/
theorem is_efficient_iff (pt pg og d : Int) :
    is_efficient pt pg og d = true ↔ efficient_spec pt pg d og := by
  simp only [is_efficient, efficient_spec, floor_takes]
  have h1 : pt * d * og - pt * d = pt * d * (og - 1) := by ring
  have h2 : pg * 10000 + og * d - d = pg * 10000 + (og - 1) * d := by ring
  rw [h1, h2]
  exact ⟨of_decide_eq_true, decide_eq_true⟩

/-- The recomputed give never exceeds the offered amount: with positive
reserves, amount and fee complement, `g0 ≤ amount`. -/
theorem order_give_g0_le_amount (pt pg amt d : Int)
    (hpt : 0 < pt) (hpg : 0 < pg) (hamt : 0 < amt) (hd : 0 < d) :
    order_give_g0 pt pg amt d ≤ amt := by
  have hden1 : (0 : Int) < pg * 10000 + amt * d := by positivity
  have hnum1 : (0 : Int) ≤ pt * amt * d := by positivity
  have hTdef : swap_takes pt pg amt d = (pt * amt * d) / (pg * 10000 + amt * d) := by
    simp only [swap_takes]
    exact Int.tdiv_eq_ediv hnum1 (le_of_lt hden1)
  set T := swap_takes pt pg amt d with hT
  have hT0 : 0 ≤ T := by
    rw [hTdef]
    exact Int.ediv_nonneg hnum1 (le_of_lt hden1)
  have hTlt : T < pt := by
    rw [hTdef]
    apply Int.ediv_lt_of_lt_mul hden1
    nlinarith [mul_pos (mul_pos hpt hpg) (show (0 : Int) < 10000 by norm_num)]
  have hfloor : T * (pg * 10000 + amt * d) ≤ pt * amt * d := by
    rw [hTdef]
    exact Int.ediv_mul_le _ (ne_of_gt hden1)
  have hden2 : (0 : Int) < (pt - T) * d := by
    apply mul_pos _ hd
    omega
  have hnum2 : (0 : Int) ≤ T * pg * 10000 := by
    apply mul_nonneg (mul_nonneg hT0 (le_of_lt hpg))
    norm_num
  have hkey : T * pg * 10000 ≤ ((pt - T) * d) * amt := by nlinarith [hfloor]
  simp only [order_give_g0, order_give_base, ← hT]
  rw [Int.tdiv_eq_ediv hnum2 (le_of_lt hden2)]
  calc (T * pg * 10000) / ((pt - T) * d)
      ≤ (((pt - T) * d) * amt) / ((pt - T) * d) := Int.ediv_le_ediv hden2 hkey
    _ = amt := Int.mul_ediv_cancel_left _ (ne_of_gt hden2)

/-- C1: with positive pool reserves, offered amount and fee complement
`diff = 10_000 − charge`, the Swap branch picks the largest of the three
candidates {g0−1, g0, g0+1} that is efficient (per
`floor_takes(og−1) < floor_takes(og)`) and ≤ the offered amount — in
particular the unguarded `g0` and `g0−1` picks still respect the bound —
and `apply_order` fails with `NoEfficientOrderGive` exactly when no
candidate qualifies. -/
theorem claim1_swap_candidate_selection (pt pg amt d : Int)
    (hpt : 0 < pt) (hpg : 0 < pg) (hamt : 0 < amt) (hd : 0 < d) :
    (choose_order_give pt pg amt d = none ↔
      ¬ good_give pt pg amt d (order_give_g0 pt pg amt d + 1) ∧
      ¬ good_give pt pg amt d (order_give_g0 pt pg amt d) ∧
      ¬ good_give pt pg amt d (order_give_g0 pt pg amt d - 1)) ∧
    (∀ g, choose_order_give pt pg amt d = some g →
      (g = order_give_g0 pt pg amt d + 1 ∨ g = order_give_g0 pt pg amt d ∨
        g = order_give_g0 pt pg amt d - 1) ∧
      good_give pt pg amt d g ∧
      ∀ og, (og = order_give_g0 pt pg amt d + 1 ∨ og = order_give_g0 pt pg amt d ∨
          og = order_give_g0 pt pg amt d - 1) →
        good_give pt pg amt d og → og ≤ g) ∧
    (∀ (b : ScoopBuilder) (order : SundaeV3Order) (given taken : SingletonValue),
      order.datum.action = .Swap given taken →
      given.asset_class = b.pool.assets.1 →
      ((b.apply_order order).2 = .error .NoEfficientOrderGive ↔
        choose_order_give b.pool_values.2 b.pool_values.1 given.amount
          (10000 - b.pool.bid_fees_per_10_thousand) = none)) := by
  have hle : order_give_g0 pt pg amt d ≤ amt :=
    order_give_g0_le_amount pt pg amt d hpt hpg hamt hd
  have hch : choose_order_give pt pg amt d =
      (if is_efficient pt pg (order_give_g0 pt pg amt d + 1) d ∧
          order_give_g0 pt pg amt d + 1 ≤ amt then
        some (order_give_g0 pt pg amt d + 1)
      else if is_efficient pt pg (order_give_g0 pt pg amt d) d then
        some (order_give_g0 pt pg amt d)
      else if is_efficient pt pg (order_give_g0 pt pg amt d - 1) d then
        some (order_give_g0 pt pg amt d - 1)
      else none) := rfl
  set G := order_give_g0 pt pg amt d with hG
  have hgood1 : ∀ og, good_give pt pg amt d og ↔
      (is_efficient pt pg og d = true ∧ og ≤ amt) := by
    intro og
    unfold good_give
    rw [is_efficient_iff]
  refine ⟨?_, ?_, ?_⟩
  · rw [hch]
    by_cases c1 : is_efficient pt pg (G + 1) d = true ∧ G + 1 ≤ amt
    · rw [if_pos c1]
      exact iff_of_false (by simp) (fun h => h.1 ((hgood1 _).mpr c1))
    · rw [if_neg c1]
      by_cases c2 : is_efficient pt pg G d = true
      · rw [if_pos c2]
        refine iff_of_false (by simp) (fun h => h.2.1 ?_)
        exact ⟨(is_efficient_iff pt pg G d).mp c2, hle⟩
      · rw [if_neg c2]
        by_cases c3 : is_efficient pt pg (G - 1) d = true
        · rw [if_pos c3]
          refine iff_of_false (by simp) (fun h => h.2.2 ?_)
          exact ⟨(is_efficient_iff pt pg (G - 1) d).mp c3, by omega⟩
        · rw [if_neg c3]
          refine iff_of_true rfl ⟨fun h => c1 ((hgood1 _).mp h), fun h => ?_, fun h => ?_⟩
          · exact c2 ((is_efficient_iff pt pg G d).mpr h.1)
          · exact c3 ((is_efficient_iff pt pg (G - 1) d).mpr h.1)
  · rw [hch]
    by_cases c1 : is_efficient pt pg (G + 1) d = true ∧ G + 1 ≤ amt
    · rw [if_pos c1]
      intro g hg
      injection hg with hg
      subst hg
      refine ⟨Or.inl rfl, (hgood1 _).mpr c1, ?_⟩
      rintro og (rfl | rfl | rfl) _ <;> omega
    · rw [if_neg c1]
      by_cases c2 : is_efficient pt pg G d = true
      · rw [if_pos c2]
        intro g hg
        injection hg with hg
        subst hg
        refine ⟨Or.inr (Or.inl rfl), ⟨(is_efficient_iff pt pg G d).mp c2, hle⟩, ?_⟩
        rintro og (rfl | rfl | rfl) hgood
        · exact absurd ((hgood1 _).mp hgood) c1
        · omega
        · omega
      · rw [if_neg c2]
        by_cases c3 : is_efficient pt pg (G - 1) d = true
        · rw [if_pos c3]
          intro g hg
          injection hg with hg
          subst hg
          refine ⟨Or.inr (Or.inr rfl),
            ⟨(is_efficient_iff pt pg (G - 1) d).mp c3, by omega⟩, ?_⟩
          rintro og (rfl | rfl | rfl) hgood
          · exact absurd ((hgood1 _).mp hgood) c1
          · exact absurd ((is_efficient_iff pt pg G d).mpr hgood.1) c2
          · omega
        · rw [if_neg c3]
          intro g hg
          cases hg
  · intro b order given taken haction hasset
    unfold ScoopBuilder.apply_order
    simp only [haction]
    rw [if_pos (show given.asset_class =
      ({ b with actual_size := b.actual_size + 1 } : ScoopBuilder).pool.assets.1 from hasset)]
    have e1 : ({ b with actual_size := b.actual_size + 1 } : ScoopBuilder).pool_values =
        b.pool_values := rfl
    have e2 : ({ b with actual_size := b.actual_size + 1 } : ScoopBuilder).pool = b.pool := rfl
    unfold ScoopBuilder.swap_core
    simp only [e1, e2]
    rcases hc : choose_order_give b.pool_values.2 b.pool_values.1 given.amount
        (10000 - b.pool.bid_fees_per_10_thousand) with _ | og
    · exact iff_of_true rfl rfl
    · exact iff_of_false (fun h => Except.noConfusion h) (fun h => Option.noConfusion h)

/-- C1 witness: the S1 numbers (pool_takes 66_733_401, pool_gives
30_000_000, amount 10_000_000, diff 9_970) satisfy the hypotheses, and
there the selection picks `g0 + 1 = 10_000_000`. -/
theorem claim1_witness :
    choose_order_give 66733401 30000000 10000000 9970 = some 10000000 ∧
    good_give 66733401 30000000 10000000 9970 10000000 := by
  have h := (claim1_swap_candidate_selection 66733401 30000000 10000000 9970
    (by norm_num) (by norm_num) (by norm_num) (by norm_num)).2.1 10000000 (by decide)
  exact ⟨by decide, h.2.1⟩
